import Mathlib

/-
Verification of the CFG-construction frontend declared in
src/runtime/vm/compiler/frontend/kernel_to_il.h.

The development shallow-embeds the data model of that header: the Fragment
cursor over the flow graph, the generic map wrappers, the flow-graph-builder
state, and the five region-tracker classes (TryCatchBlock, TryFinallyBlock,
SwitchBlock, BreakableBlock, CatchBlock).  Nullable C++ pointers are modelled
as Option values; intptr_t counters as Int; a pointer into a singly linked
chain of region trackers as the list suffix that starts at the pointed-to
node (head = the node, tail = its chain of outers).  Mutation is modelled by
explicit state passing: a C++ member function that mutates the builder
becomes a Lean function returning the updated builder.
-/

namespace KernelToIl

/-- Shallow embedding of the Fragment class of kernel_to_il.h (lines 164 to
184): the fields entry and current are nullable Instruction pointers,
modelled here as optional node identifiers. -/
structure Fragment where
  entry : Option Nat
  current : Option Nat
deriving DecidableEq, Repr

/-- Translation of Fragment.is_open (line 177 of the header): the fragment is
open when entry == NULL or current != NULL. -/
def Fragment.is_open (f : Fragment) : Bool :=
  f.entry.isNone || f.current.isSome

/-- Translation of Fragment.is_closed (line 178 of the header): the negation
of is_open. -/
def Fragment.is_closed (f : Fragment) : Bool :=
  !f.is_open

/-- Underlying flow graph, recorded as the list of directed edges created by
wiring instructions together (LinkTo calls). -/
def Graph : Type := List (Nat × Nat)

/-- Modelled from the spec: the body of Fragment.operator+= lives in
kernel_to_il.cc, which is not under src (the header only declares it at line
180).  The spec says concatenating an open fragment with another wires the
open exit of the first to the entry of the second and the result spans
a.entry to b.current, while concatenating a closed fragment is a no-op
producing the original.  The underlying graph gains one edge when a wiring
happens and is otherwise untouched. -/
def concatenate (g : Graph) (a b : Fragment) : Graph × Fragment :=
  if a.is_closed then (g, a)
  else
    match a.entry, b.entry with
    | none, _ => (g, b)
    | some _, none => (g, a)
    | some _, some be =>
      match a.current with
      | some ac => ((ac, be) :: g, { entry := a.entry, current := b.current })
      | none => (g, a)

/-- Association-list lookup returning the stored pair, modelling
DirectChainedHashMap Lookup, which returns a pointer to the stored Pair or
NULL when the key is absent. -/
def assocLookup {K V : Type} [DecidableEq K] : List (K × V) → K → Option (K × V)
  | [], _ => none
  | p :: rest, k => if p.1 = k then some p else assocLookup rest k

/-- Modelled from the spec: DirectChainedHashMap itself lives in
vm/hash_map.h, which is not under src; we model the three wrappers of
kernel_to_il.h over a common association-list state in which Insert adds a
pair and Lookup finds a stored pair or reports absence.  Wrapper Map of
kernel_to_il.h lines 54 to 79. -/
structure Map (K V : Type) where
  pairs : List (K × V)
deriving DecidableEq, Repr

/-- Translation of Map.Insert (lines 61 to 64): builds a Pair and inserts it
into the underlying hash map. -/
def Map.Insert {K V : Type} (m : Map K V) (k : K) (v : V) : Map K V :=
  { pairs := (k, v) :: m.pairs }

/-- Translation of Map.LookupPair (lines 76 to 78): returns the stored pair
or NULL. -/
def Map.LookupPair {K V : Type} [DecidableEq K] (m : Map K V) (k : K) :
    Option (K × V) :=
  assocLookup m.pairs k

/-- Translation of Map.Lookup (lines 66 to 74): if the underlying lookup
returns NULL the default-constructed value V() results, else the stored
value.  V() is modelled by Inhabited.default (for pointer value types the
default is none, the null pointer). -/
def Map.Lookup {K V : Type} [DecidableEq K] [Inhabited V] (m : Map K V)
    (k : K) : V :=
  match assocLookup m.pairs k with
  | none => default
  | some p => p.2

/-- Map holding only the pairs produced by the given sequence of Insert
calls, newest first, starting from an empty map. -/
def Map.ofInserts {K V : Type} : List (K × V) → Map K V
  | [] => { pairs := [] }
  | p :: rest => Map.Insert (Map.ofInserts rest) p.1 p.2

/-- Translation of the IntMap wrapper (kernel_to_il.h lines 101 to 126),
whose key type is intptr_t. -/
structure IntMap (V : Type) where
  pairs : List (Int × V)
deriving DecidableEq, Repr

/-- Translation of IntMap.Insert (lines 108 to 111). -/
def IntMap.Insert {V : Type} (m : IntMap V) (k : Int) (v : V) : IntMap V :=
  { pairs := (k, v) :: m.pairs }

/-- Translation of IntMap.LookupPair (lines 123 to 125). -/
def IntMap.LookupPair {V : Type} (m : IntMap V) (k : Int) :
    Option (Int × V) :=
  assocLookup m.pairs k

/-- Translation of IntMap.Lookup (lines 113 to 121). -/
def IntMap.Lookup {V : Type} [Inhabited V] (m : IntMap V) (k : Int) : V :=
  match assocLookup m.pairs k with
  | none => default
  | some p => p.2

/-- IntMap holding only the pairs produced by the given sequence of Insert
calls, newest first, starting from an empty map. -/
def IntMap.ofInserts {V : Type} : List (Int × V) → IntMap V
  | [] => { pairs := [] }
  | p :: rest => IntMap.Insert (IntMap.ofInserts rest) p.1 p.2

/-- Translation of the MallocMap wrapper (kernel_to_il.h lines 128 to 155);
it differs from Map only in the allocation policy of the underlying hash
map, which the model does not observe. -/
structure MallocMap (K V : Type) where
  pairs : List (K × V)
deriving DecidableEq, Repr

/-- Translation of MallocMap.Insert (lines 136 to 139). -/
def MallocMap.Insert {K V : Type} (m : MallocMap K V) (k : K) (v : V) :
    MallocMap K V :=
  { pairs := (k, v) :: m.pairs }

/-- Translation of MallocMap.LookupPair (lines 151 to 154). -/
def MallocMap.LookupPair {K V : Type} [DecidableEq K] (m : MallocMap K V)
    (k : K) : Option (K × V) :=
  assocLookup m.pairs k

/-- Translation of MallocMap.Lookup (lines 141 to 149). -/
def MallocMap.Lookup {K V : Type} [DecidableEq K] [Inhabited V]
    (m : MallocMap K V) (k : K) : V :=
  match assocLookup m.pairs k with
  | none => default
  | some p => p.2

/-- MallocMap holding only the pairs produced by the given sequence of
Insert calls, newest first, starting from an empty map. -/
def MallocMap.ofInserts {K V : Type} : List (K × V) → MallocMap K V
  | [] => { pairs := [] }
  | p :: rest => MallocMap.Insert (MallocMap.ofInserts rest) p.1 p.2

/-- Identity of a JoinEntryInstr allocated by the builder: its block id and
the try-index it was tagged with.  Pointer identity of the C++ object is
modelled by the block id, which the builder allocates freshly each time. -/
structure JoinEntry where
  id : Int
  try_index : Int
deriving DecidableEq, Repr

/-- Data carried by one TryCatchBlock node of the chained list rooted at the
builder field try_catch_block_ (kernel_to_il.h lines 923 to 942).  The outer
pointer of a node is modelled by the tail of the chain list. -/
structure TryCatchRec where
  try_index : Int
deriving DecidableEq, Repr

/-- Data carried by one TryFinallyBlock node of the chained list rooted at
the builder field try_finally_block_ (kernel_to_il.h lines 944 to 973). -/
structure TryFinallyRec where
  finalizer_kernel_offset : Int
  context_depth : Int
  try_depth : Int
  try_index : Int
deriving DecidableEq, Repr

/-- Data carried by one SwitchBlock node of the chained list rooted at the
builder field switch_block_ (kernel_to_il.h lines 842 to 921).  The field
outer_finally records the try-finally chain pointer captured at
construction, modelled as the chain suffix; destinations is the lazily
filled IntMap from relative case number to JoinEntryInstr pointer. -/
structure SwitchRec where
  outer_finally : List TryFinallyRec
  case_count : Int
  depth : Int
  context_depth : Int
  try_index : Int
  destinations : IntMap (Option JoinEntry)
deriving DecidableEq, Repr

/-- Data carried by one BreakableBlock node of the chained list rooted at
the builder field breakable_block_ (kernel_to_il.h lines 975 to 1025). -/
structure BreakableRec where
  index : Int
  destination : Option JoinEntry
  outer_finally : List TryFinallyRec
  context_depth : Int
  try_index : Int
deriving DecidableEq, Repr

/-- Data carried by one CatchBlock node of the chained list rooted at the
builder field catch_block_ (kernel_to_il.h lines 1027 to 1052).  The two
LocalVariable pointers are modelled as optional variable identifiers. -/
structure CatchRec where
  exception_var : Option Nat
  stack_trace_var : Option Nat
  catch_try_index : Int
deriving DecidableEq, Repr

/-- State of the flow-graph builder that the region trackers read and
mutate: the counters of BaseFlowGraphBuilder (kernel_to_il.h lines 520 to
623), the try_depth_ counter of FlowGraphBuilder (line 792), and the five
chained lists of region trackers, each stored innermost first so that the
head is the top-of-stack pointer of its kind. -/
structure Builder where
  context_depth : Int
  try_depth : Int
  next_used_try_index : Int
  last_used_block_id : Int
  try_catch_chain : List TryCatchRec
  try_finally_chain : List TryFinallyRec
  switch_chain : List SwitchRec
  breakable_chain : List BreakableRec
  catch_chain : List CatchRec
deriving DecidableEq, Repr

/-- Translation of BaseFlowGraphBuilder.AllocateTryIndex (line 596): returns
next_used_try_index_ and post-increments it. -/
def Builder.AllocateTryIndex (b : Builder) : Int × Builder :=
  (b.next_used_try_index,
   { b with next_used_try_index := b.next_used_try_index + 1 })

/-- Translation of BaseFlowGraphBuilder.AllocateBlockId (line 599): pre-
increments last_used_block_id_ and returns the new value. -/
def Builder.AllocateBlockId (b : Builder) : Int × Builder :=
  (b.last_used_block_id + 1,
   { b with last_used_block_id := b.last_used_block_id + 1 })

/-- Modelled from the spec: the body of BaseFlowGraphBuilder.CurrentTryIndex
(declared at line 600) lives in kernel_to_il.cc, which is not under src.
The spec says the builder supplies the current exception-try-index by
walking to the innermost live exception-protected region; when none is live
the invalid try-index -1 results. -/
def Builder.CurrentTryIndex (b : Builder) : Int :=
  match b.try_catch_chain with
  | [] => -1
  | r :: _ => r.try_index

/-- Modelled from the spec: the body of BaseFlowGraphBuilder.BuildJoinEntry
with a try-index argument (declared at line 564) lives in kernel_to_il.cc,
which is not under src.  The spec says the builder builds a join-entry block
tagged with a try-index; the block receives a fresh block id from
AllocateBlockId. -/
def Builder.BuildJoinEntry (b : Builder) (try_index : Int) :
    JoinEntry × Builder :=
  let ab := b.AllocateBlockId
  ({ id := ab.1, try_index := try_index }, ab.2)

/-- Translation of the TryCatchBlock constructor (lines 925 to 932): the
outer pointer is the previous top-of-stack, the try-index is the handler
index when one is given and a freshly allocated index when it is -1, and
the new node becomes the top-of-stack.  The result pairs the node together
with the saved outer chain (the value of the member outer_) with the
mutated builder. -/
def TryCatchBlock.construct (b : Builder) (try_handler_index : Int) :
    (TryCatchRec × List TryCatchRec) × Builder :=
  let tib := if try_handler_index = -1 then b.AllocateTryIndex
             else (try_handler_index, b)
  let r : TryCatchRec := { try_index := tib.1 }
  ((r, b.try_catch_chain),
   { tib.2 with try_catch_chain := r :: tib.2.try_catch_chain })

/-- Translation of the TryCatchBlock destructor (line 933): the builder
top-of-stack pointer is set back to the saved outer chain, whatever the
builder state at destruction time is. -/
def TryCatchBlock.destruct (saved : List TryCatchRec) (b : Builder) :
    Builder :=
  { b with try_catch_chain := saved }

/-- Translation of the TryFinallyBlock constructor (lines 946 to 957): the
node records the finalizer kernel offset, the builder context depth, the
builder try depth minus one (the header comments that finalizers are
executed outside of the try block), and the current try-index; the node
becomes the top-of-stack. -/
def TryFinallyBlock.construct (b : Builder) (finalizer_kernel_offset : Int) :
    (TryFinallyRec × List TryFinallyRec) × Builder :=
  let r : TryFinallyRec :=
    { finalizer_kernel_offset := finalizer_kernel_offset,
      context_depth := b.context_depth,
      try_depth := b.try_depth - 1,
      try_index := b.CurrentTryIndex }
  ((r, b.try_finally_chain),
   { b with try_finally_chain := r :: b.try_finally_chain })

/-- Translation of the TryFinallyBlock destructor (line 958). -/
def TryFinallyBlock.destruct (saved : List TryFinallyRec) (b : Builder) :
    Builder :=
  { b with try_finally_chain := saved }

/-- Translation of the SwitchBlock constructor (lines 844 to 857): the node
records the outer switch chain, the current try-finally chain, the case
count, the builder context depth and the current try-index; its depth is
the outer depth plus the outer case count, or zero when there is no outer
switch; the destination map starts empty; the node becomes the
top-of-stack. -/
def SwitchBlock.construct (b : Builder) (case_count : Int) :
    (SwitchRec × List SwitchRec) × Builder :=
  let r : SwitchRec :=
    { outer_finally := b.try_finally_chain,
      case_count := case_count,
      depth := match b.switch_chain with
               | [] => 0
               | o :: _ => o.depth + o.case_count,
      context_depth := b.context_depth,
      try_index := b.CurrentTryIndex,
      destinations := { pairs := [] } }
  ((r, b.switch_chain),
   { b with switch_chain := r :: b.switch_chain })

/-- Translation of the SwitchBlock destructor (line 858). -/
def SwitchBlock.destruct (saved : List SwitchRec) (b : Builder) : Builder :=
  { b with switch_chain := saved }

/-- Translation of the BreakableBlock constructor (lines 977 to 990): the
node records the outer breakable chain, a null destination, the current
try-finally chain, the builder context depth and the current try-index; its
index is zero when there is no outer breakable block and the outer index
plus one otherwise; the node becomes the top-of-stack. -/
def BreakableBlock.construct (b : Builder) :
    (BreakableRec × List BreakableRec) × Builder :=
  let r : BreakableRec :=
    { index := match b.breakable_chain with
               | [] => 0
               | o :: _ => o.index + 1,
      destination := none,
      outer_finally := b.try_finally_chain,
      context_depth := b.context_depth,
      try_index := b.CurrentTryIndex }
  ((r, b.breakable_chain),
   { b with breakable_chain := r :: b.breakable_chain })

/-- Translation of the BreakableBlock destructor (line 991). -/
def BreakableBlock.destruct (saved : List BreakableRec) (b : Builder) :
    Builder :=
  { b with breakable_chain := saved }

/-- Translation of the CatchBlock constructor (lines 1029 to 1039): the node
records the two handler variables and the catch try-index; the node becomes
the top-of-stack. -/
def CatchBlock.construct (b : Builder) (exception_var : Option Nat)
    (stack_trace_var : Option Nat) (catch_try_index : Int) :
    (CatchRec × List CatchRec) × Builder :=
  let r : CatchRec :=
    { exception_var := exception_var,
      stack_trace_var := stack_trace_var,
      catch_try_index := catch_try_index }
  ((r, b.catch_chain),
   { b with catch_chain := r :: b.catch_chain })

/-- Translation of the CatchBlock destructor (line 1040). -/
def CatchBlock.destruct (saved : List CatchRec) (b : Builder) : Builder :=
  { b with catch_chain := saved }

/-- Translation of SwitchBlock.HadJumper (lines 860 to 862): true exactly
when the destination map holds a non-null join entry for the case number. -/
def SwitchRec.HadJumper (r : SwitchRec) (case_num : Int) : Bool :=
  (IntMap.Lookup r.destinations case_num).isSome

/-- Translation of SwitchBlock.EnsureDestination (lines 901 to 909): when
the destination map has no join entry for the case number, a join entry
tagged with the try-index of the block is built and inserted; otherwise the
cached join entry is returned and nothing changes. -/
def SwitchRec.EnsureDestination (r : SwitchRec) (b : Builder)
    (case_num : Int) : JoinEntry × SwitchRec × Builder :=
  match IntMap.Lookup r.destinations case_num with
  | none =>
    let jb := b.BuildJoinEntry r.try_index
    (jb.1,
     { r with destinations := IntMap.Insert r.destinations case_num (some jb.1) },
     jb.2)
  | some inst => (inst, r, b)

/-- Translation of SwitchBlock.Destination (lines 866 to 883), walking a
switch chain whose head is the receiver block: while the block depth
exceeds the absolute target index, step to the outer block; on the found
block, report its outer finally chain and context depth and ensure a join
entry for the target index minus the block depth.  Stepping outward past
the end of the chain dereferences a null pointer in the C++ code, modelled
as none.  The result carries the join entry, the reported finally chain and
context depth, the updated switch chain and the updated builder. -/
def SwitchBlock.Destination :
    List SwitchRec → Builder → Int →
    Option (JoinEntry × List TryFinallyRec × Int × List SwitchRec × Builder)
  | [], _, _ => none
  | r :: rest, b, target_index =>
    if r.depth > target_index then
      match SwitchBlock.Destination rest b target_index with
      | none => none
      | some (j, f, cd, rest1, b1) => some (j, f, cd, r :: rest1, b1)
    else
      let e := r.EnsureDestination b (target_index - r.depth)
      some (e.1, r.outer_finally, r.context_depth, e.2.1 :: rest, e.2.2)

/-- Translation of BreakableBlock.HadJumper (line 993). -/
def BreakableRec.HadJumper (r : BreakableRec) : Bool :=
  r.destination.isSome

/-- Translation of BreakableBlock.EnsureDestination (lines 1011 to 1016):
when the destination is null a join entry tagged with the try-index of the
block is built and stored; otherwise the stored join entry is returned. -/
def BreakableRec.EnsureDestination (r : BreakableRec) (b : Builder) :
    JoinEntry × BreakableRec × Builder :=
  match r.destination with
  | none =>
    let jb := b.BuildJoinEntry r.try_index
    (jb.1, { r with destination := some jb.1 }, jb.2)
  | some j => (j, r, b)

/-- Walk of BreakableBlock.BreakDestination over an explicit breakable
chain: while the block index differs from the label index, step to the
outer block (stepping past the end dereferences a null pointer, modelled as
none); on the found block, report its outer finally chain and context depth
and ensure its destination join entry.  The result carries the join entry,
the reported finally chain and context depth, the updated breakable chain
and the updated builder. -/
def breakWalk :
    List BreakableRec → Builder → Int →
    Option (JoinEntry × List TryFinallyRec × Int × List BreakableRec × Builder)
  | [], _, _ => none
  | r :: rest, b, label_index =>
    if r.index = label_index then
      let e := r.EnsureDestination b
      some (e.1, r.outer_finally, r.context_depth, e.2.1 :: rest, e.2.2)
    else
      match breakWalk rest b label_index with
      | none => none
      | some (j, f, cd, rest1, b1) => some (j, f, cd, r :: rest1, b1)

/-- Translation of BreakableBlock.BreakDestination (lines 997 to 1008): the
walk starts at the builder top-of-stack breakable block; the updated chain
is written back into the builder. -/
def BreakableBlock.BreakDestination (b : Builder) (label_index : Int) :
    Option (JoinEntry × List TryFinallyRec × Int × Builder) :=
  match breakWalk b.breakable_chain b label_index with
  | none => none
  | some (j, f, cd, chain1, b1) =>
    some (j, f, cd, { b1 with breakable_chain := chain1 })

/-- Translation of the ActiveClass record (kernel_to_il.h lines 191 to
233): four nullable pointers, modelled as optional identifiers of the
pointed-to entities. -/
structure ActiveClass where
  klass : Option Nat
  member : Option Nat
  enclosing : Option Nat
  local_type_parameters : Option Nat
deriving DecidableEq, Repr

/-- Translation of the ActiveClassScope constructor (lines 237 to 240): the
whole ActiveClass is saved and the klass field is overwritten.  The result
pairs the saved copy with the new state. -/
def ActiveClassScope.construct (ac : ActiveClass) (klass : Option Nat) :
    ActiveClass × ActiveClass :=
  (ac, { ac with klass := klass })

/-- Translation of the ActiveClassScope destructor (line 242): the saved
copy is written back wholesale, whatever the state at destruction time. -/
def ActiveClassScope.destruct (saved : ActiveClass) (_cur : ActiveClass) :
    ActiveClass :=
  saved

/-- Translation of the ActiveMemberScope constructor (lines 251 to 255): the
whole ActiveClass is saved and only the member field is overwritten (the
header comments that the class is inherited). -/
def ActiveMemberScope.construct (ac : ActiveClass) (member : Option Nat) :
    ActiveClass × ActiveClass :=
  (ac, { ac with member := member })

/-- Translation of the ActiveMemberScope destructor (line 257). -/
def ActiveMemberScope.destruct (saved : ActiveClass) (_cur : ActiveClass) :
    ActiveClass :=
  saved

/-- Builder state after n consecutive constructions of TryCatchBlock with
the default handler index -1, each nested inside the previous one. -/
def iterTryCatch (b : Builder) : Nat → Builder
  | 0 => b
  | n + 1 => (TryCatchBlock.construct (iterTryCatch b n) (-1)).2

/-- Node and saved outer chain of the n-th (zero-based) TryCatchBlock in a
run of consecutive default constructions. -/
def nthTryCatch (b : Builder) (n : Nat) : TryCatchRec × List TryCatchRec :=
  (TryCatchBlock.construct (iterTryCatch b n) (-1)).1

/-- Concrete builder state used by witnesses and counterexamples. -/
def builder0 : Builder :=
  { context_depth := 2,
    try_depth := 1,
    next_used_try_index := 5,
    last_used_block_id := 10,
    try_catch_chain := [],
    try_finally_chain := [],
    switch_chain := [],
    breakable_chain := [],
    catch_chain := [] }

/-- Concrete outermost switch block used by witnesses: two cases, depth
zero. -/
def switchOuter : SwitchRec :=
  { outer_finally := [], case_count := 2, depth := 0, context_depth := 9,
    try_index := 5, destinations := { pairs := [] } }

/-- Concrete nested switch block used by witnesses: three cases, numbered
after the two outer cases, so depth two. -/
def switchInner : SwitchRec :=
  { outer_finally := [], case_count := 3, depth := 2, context_depth := 7,
    try_index := 4, destinations := { pairs := [] } }

/-- Join entry allocated by the first BuildJoinEntry call on builder0. -/
def joinEntry11 : JoinEntry := { id := 11, try_index := 5 }

/-- State of switchOuter after the destination for case one has been
materialized. -/
def switchOuterFilled : SwitchRec :=
  { switchOuter with destinations := { pairs := [(1, some joinEntry11)] } }

/-- State of builder0 after one block id allocation. -/
def builder11 : Builder := { builder0 with last_used_block_id := 11 }

/-- Concrete innermost breakable block used by witnesses. -/
def breakInner : BreakableRec :=
  { index := 1, destination := none, outer_finally := [], context_depth := 3,
    try_index := 2 }

/-- Concrete outermost breakable block used by witnesses. -/
def breakOuter : BreakableRec :=
  { index := 0, destination := none, outer_finally := [], context_depth := 1,
    try_index := 0 }

/-- Builder state with two nested breakable blocks, used by witnesses. -/
def builder1 : Builder :=
  { builder0 with breakable_chain := [breakInner, breakOuter] }

/-- Association lookup misses every key that no stored pair carries. -/
theorem assocLookup_eq_none {K V : Type} [DecidableEq K]
    (l : List (K × V)) (k : K) (h : ∀ p ∈ l, p.1 ≠ k) :
    assocLookup l k = none := by
  induction l with
  | nil => rfl
  | cons p rest ih =>
    have hp : p.1 ≠ k := h p (List.mem_cons_self p rest)
    simp only [assocLookup, if_neg hp]
    exact ih (fun q hq => h q (List.mem_cons_of_mem p hq))

/-- Pairs stored by Map.ofInserts are exactly the inserted ones. -/
theorem mapOfInserts_pairs {K V : Type} (kvs : List (K × V)) :
    (Map.ofInserts kvs).pairs = kvs := by
  induction kvs with
  | nil => rfl
  | cons p rest ih => simp [Map.ofInserts, Map.Insert, ih]

/-- Pairs stored by IntMap.ofInserts are exactly the inserted ones. -/
theorem intMapOfInserts_pairs {V : Type} (kvs : List (Int × V)) :
    (IntMap.ofInserts kvs).pairs = kvs := by
  induction kvs with
  | nil => rfl
  | cons p rest ih => simp [IntMap.ofInserts, IntMap.Insert, ih]

/-- Pairs stored by MallocMap.ofInserts are exactly the inserted ones. -/
theorem mallocMapOfInserts_pairs {K V : Type} (kvs : List (K × V)) :
    (MallocMap.ofInserts kvs).pairs = kvs := by
  induction kvs with
  | nil => rfl
  | cons p rest ih => simp [MallocMap.ofInserts, MallocMap.Insert, ih]

/-- C7: is_open returns true exactly when the fragment has no entry node or
its current exit node is non-null, is_closed returns the negation of
is_open, and in particular a fragment with a non-null entry and a null
current exit is closed. -/
theorem fragment_open_iff (f : Fragment) :
    (f.is_open = true ↔ (f.entry = none ∨ ¬ f.current = none))
    ∧ f.is_closed = !f.is_open
    ∧ (¬ f.entry = none → f.current = none → f.is_closed = true) := by
  obtain ⟨e, c⟩ := f
  cases e <;> cases c <;>
    simp [Fragment.is_open, Fragment.is_closed]

/-- Witness for C7 at the fragment with entry some 3 and current none. -/
theorem fragment_open_iff_witness :
    ¬ (Fragment.mk (some 3) none).entry = none
    ∧ (Fragment.mk (some 3) none).is_closed = true :=
  ⟨by decide, (fragment_open_iff (Fragment.mk (some 3) none)).2.2 (by decide) rfl⟩

/-- C1: concatenation with a closed left fragment yields the original left
fragment and leaves the underlying graph, hence its reachable nodes and
edges, unchanged. -/
theorem concatenate_closed_absorbs (g : Graph) (a b : Fragment)
    (h : a.is_closed = true) : concatenate g a b = (g, a) := by
  simp [concatenate, h]

/-- Witness for C1 at a concrete closed left fragment. -/
theorem concatenate_closed_absorbs_witness :
    (Fragment.mk (some 1) none).is_closed = true
    ∧ concatenate ([] : Graph) (Fragment.mk (some 1) none)
        (Fragment.mk (some 2) (some 2))
      = (([] : Graph), Fragment.mk (some 1) none) :=
  ⟨rfl, concatenate_closed_absorbs ([] : Graph) (Fragment.mk (some 1) none)
    (Fragment.mk (some 2) (some 2)) rfl⟩

/-- C2 counterexample: at a concrete builder whose try depth is 1 at
construction time, the TryFinallyBlock records try depth 0, so the
try_depth accessor does not return the exception-try depth that was in
effect at construction time. -/
theorem try_finally_try_depth_counterexample :
    builder0.try_depth = 1
    ∧ (TryFinallyBlock.construct builder0 7).1.1.try_depth = 0
    ∧ ¬ (TryFinallyBlock.construct builder0 7).1.1.try_depth
          = builder0.try_depth := by
  refine ⟨rfl, rfl, ?_⟩
  decide

/-- C2 (amended): when a TryFinallyBlock is constructed it records the
finalizer body tree offset, the context nesting depth in effect at its
start, one less than the exception-try depth in effect at its start (the
header comments that finalizers are executed outside of the try block), and
the current try-index, and the accessors return exactly those recorded
values. -/
theorem try_finally_block_records (b : Builder) (off : Int) :
    (TryFinallyBlock.construct b off).1.1.finalizer_kernel_offset = off
    ∧ (TryFinallyBlock.construct b off).1.1.context_depth = b.context_depth
    ∧ (TryFinallyBlock.construct b off).1.1.try_depth = b.try_depth - 1
    ∧ (TryFinallyBlock.construct b off).1.1.try_index = b.CurrentTryIndex :=
  ⟨rfl, rfl, rfl, rfl⟩

/-- C4: for each of the five region-tracker kinds, construction links the
new node in front of the previous top-of-stack for its kind and records
that previous top-of-stack, and destruction with the recorded value
restores the top-of-stack pointer of that kind to exactly its
pre-construction value from any builder state reached on any exit path. -/
theorem region_trackers_stack_discipline :
    (∀ (b : Builder) (i : Int),
      (TryCatchBlock.construct b i).2.try_catch_chain
          = (TryCatchBlock.construct b i).1.1 :: b.try_catch_chain
      ∧ (TryCatchBlock.construct b i).1.2 = b.try_catch_chain
      ∧ ∀ b2 : Builder,
          (TryCatchBlock.destruct (TryCatchBlock.construct b i).1.2
            b2).try_catch_chain = b.try_catch_chain)
    ∧ (∀ (b : Builder) (off : Int),
      (TryFinallyBlock.construct b off).2.try_finally_chain
          = (TryFinallyBlock.construct b off).1.1 :: b.try_finally_chain
      ∧ (TryFinallyBlock.construct b off).1.2 = b.try_finally_chain
      ∧ ∀ b2 : Builder,
          (TryFinallyBlock.destruct (TryFinallyBlock.construct b off).1.2
            b2).try_finally_chain = b.try_finally_chain)
    ∧ (∀ (b : Builder) (cc : Int),
      (SwitchBlock.construct b cc).2.switch_chain
          = (SwitchBlock.construct b cc).1.1 :: b.switch_chain
      ∧ (SwitchBlock.construct b cc).1.2 = b.switch_chain
      ∧ ∀ b2 : Builder,
          (SwitchBlock.destruct (SwitchBlock.construct b cc).1.2
            b2).switch_chain = b.switch_chain)
    ∧ (∀ b : Builder,
      (BreakableBlock.construct b).2.breakable_chain
          = (BreakableBlock.construct b).1.1 :: b.breakable_chain
      ∧ (BreakableBlock.construct b).1.2 = b.breakable_chain
      ∧ ∀ b2 : Builder,
          (BreakableBlock.destruct (BreakableBlock.construct b).1.2
            b2).breakable_chain = b.breakable_chain)
    ∧ (∀ (b : Builder) (ev sv : Option Nat) (ci : Int),
      (CatchBlock.construct b ev sv ci).2.catch_chain
          = (CatchBlock.construct b ev sv ci).1.1 :: b.catch_chain
      ∧ (CatchBlock.construct b ev sv ci).1.2 = b.catch_chain
      ∧ ∀ b2 : Builder,
          (CatchBlock.destruct (CatchBlock.construct b ev sv ci).1.2
            b2).catch_chain = b.catch_chain) := by
  refine ⟨fun b i => ?_, fun b off => ⟨rfl, rfl, fun b2 => rfl⟩,
          fun b cc => ⟨rfl, rfl, fun b2 => rfl⟩,
          fun b => ⟨rfl, rfl, fun b2 => rfl⟩,
          fun b ev sv ci => ⟨rfl, rfl, fun b2 => rfl⟩⟩
  unfold TryCatchBlock.construct
  split <;> exact ⟨rfl, rfl, fun b2 => rfl⟩

/-- C9: each active-class scope guard saves the entire ActiveClass state at
construction and restores exactly that state at destruction from any
intermediate state; while alive, ActiveClassScope modifies only the klass
field and ActiveMemberScope modifies only the member field, leaving every
other field unchanged. -/
theorem active_scopes_save_restore :
    (∀ (ac : ActiveClass) (k : Option Nat),
      (ActiveClassScope.construct ac k).1 = ac
      ∧ (ActiveClassScope.construct ac k).2.klass = k
      ∧ (ActiveClassScope.construct ac k).2.member = ac.member
      ∧ (ActiveClassScope.construct ac k).2.enclosing = ac.enclosing
      ∧ (ActiveClassScope.construct ac k).2.local_type_parameters
          = ac.local_type_parameters
      ∧ ∀ cur : ActiveClass,
          ActiveClassScope.destruct (ActiveClassScope.construct ac k).1 cur = ac)
    ∧ (∀ (ac : ActiveClass) (m : Option Nat),
      (ActiveMemberScope.construct ac m).1 = ac
      ∧ (ActiveMemberScope.construct ac m).2.member = m
      ∧ (ActiveMemberScope.construct ac m).2.klass = ac.klass
      ∧ (ActiveMemberScope.construct ac m).2.enclosing = ac.enclosing
      ∧ (ActiveMemberScope.construct ac m).2.local_type_parameters
          = ac.local_type_parameters
      ∧ ∀ cur : ActiveClass,
          ActiveMemberScope.destruct (ActiveMemberScope.construct ac m).1 cur
            = ac) :=
  ⟨fun _ _ => ⟨rfl, rfl, rfl, rfl, rfl, fun _ => rfl⟩,
   fun _ _ => ⟨rfl, rfl, rfl, rfl, rfl, fun _ => rfl⟩⟩

/-- C10: for each of the three wrappers, Lookup on a key that was never
inserted returns the default-constructed value V() (the null pointer for
pointer value types) and LookupPair on such a key returns null. -/
theorem wrappers_lookup_missing_key {K V : Type} [DecidableEq K] [Inhabited V]
    (kvs mkvs : List (K × V)) (ikvs : List (Int × V)) (k : K) (ik : Int)
    (h1 : ∀ p ∈ kvs, p.1 ≠ k) (h2 : ∀ p ∈ mkvs, p.1 ≠ k)
    (h3 : ∀ p ∈ ikvs, p.1 ≠ ik) :
    Map.Lookup (Map.ofInserts kvs) k = default
    ∧ Map.LookupPair (Map.ofInserts kvs) k = none
    ∧ IntMap.Lookup (IntMap.ofInserts ikvs) ik = default
    ∧ IntMap.LookupPair (IntMap.ofInserts ikvs) ik = none
    ∧ MallocMap.Lookup (MallocMap.ofInserts mkvs) k = default
    ∧ MallocMap.LookupPair (MallocMap.ofInserts mkvs) k = none := by
  have e1 : assocLookup (Map.ofInserts kvs).pairs k = none := by
    rw [mapOfInserts_pairs]; exact assocLookup_eq_none kvs k h1
  have e2 : assocLookup (MallocMap.ofInserts mkvs).pairs k = none := by
    rw [mallocMapOfInserts_pairs]; exact assocLookup_eq_none mkvs k h2
  have e3 : assocLookup (IntMap.ofInserts ikvs).pairs ik = none := by
    rw [intMapOfInserts_pairs]; exact assocLookup_eq_none ikvs ik h3
  exact ⟨by simp [Map.Lookup, e1], by simp [Map.LookupPair, e1],
         by simp [IntMap.Lookup, e3], by simp [IntMap.LookupPair, e3],
         by simp [MallocMap.Lookup, e2], by simp [MallocMap.LookupPair, e2]⟩

/-- Witness for C10 with pointer-valued maps (value type Option Nat, whose
default-constructed value is none) and concrete missing keys. -/
theorem wrappers_lookup_missing_key_witness :
    (∀ p ∈ [((1 : Nat), (some 5 : Option Nat))], p.1 ≠ 2)
    ∧ (Map.Lookup (Map.ofInserts [((1 : Nat), (some 5 : Option Nat))]) 2
          = default
       ∧ Map.LookupPair (Map.ofInserts [((1 : Nat), (some 5 : Option Nat))]) 2
          = none
       ∧ IntMap.Lookup (IntMap.ofInserts [((3 : Int), (some 7 : Option Nat))]) 0
          = default
       ∧ IntMap.LookupPair
            (IntMap.ofInserts [((3 : Int), (some 7 : Option Nat))]) 0 = none
       ∧ MallocMap.Lookup
            (MallocMap.ofInserts [((4 : Nat), (some 9 : Option Nat))]) 2
          = default
       ∧ MallocMap.LookupPair
            (MallocMap.ofInserts [((4 : Nat), (some 9 : Option Nat))]) 2
          = none) :=
  ⟨by decide,
   wrappers_lookup_missing_key [((1 : Nat), (some 5 : Option Nat))]
     [((4 : Nat), (some 9 : Option Nat))] [((3 : Int), (some 7 : Option Nat))]
     2 0 (by decide) (by decide) (by decide)⟩

/-- Counter value after n consecutive default TryCatchBlock constructions:
each construction allocates one try index. -/
theorem iterTryCatch_next (b : Builder) (n : Nat) :
    (iterTryCatch b n).next_used_try_index = b.next_used_try_index + n := by
  induction n with
  | zero => simp [iterTryCatch]
  | succ n ih =>
    simp only [iterTryCatch, TryCatchBlock.construct, Builder.AllocateTryIndex,
      if_pos rfl, ih]
    push_cast
    ring

/-- Try index of the n-th block in a run of consecutive default
TryCatchBlock constructions. -/
theorem nthTryCatch_try_index (b : Builder) (n : Nat) :
    (nthTryCatch b n).1.try_index = b.next_used_try_index + n := by
  simp only [nthTryCatch, TryCatchBlock.construct, Builder.AllocateTryIndex,
    if_pos rfl]
  exact iterTryCatch_next b n

/-- C8: a TryCatchBlock constructed without an explicit handler index (the
default -1) takes a freshly allocated try-index equal to the current value
of the builder counter, which AllocateTryIndex then advances, so successive
such regions of one builder carry strictly increasing, pairwise distinct
try-indices; each new region records the previously active region chain as
its outer. -/
theorem try_catch_fresh_indices :
    (∀ (b : Builder) (m n : Nat), m < n →
        (nthTryCatch b m).1.try_index < (nthTryCatch b n).1.try_index
        ∧ ¬ (nthTryCatch b m).1.try_index = (nthTryCatch b n).1.try_index)
    ∧ (∀ b : Builder,
        (TryCatchBlock.construct b (-1)).1.1.try_index = b.next_used_try_index
        ∧ (TryCatchBlock.construct b (-1)).2.next_used_try_index
            = b.next_used_try_index + 1
        ∧ (TryCatchBlock.construct b (-1)).1.2 = b.try_catch_chain)
    ∧ (∀ (b : Builder) (n : Nat),
        (nthTryCatch b n).2 = (iterTryCatch b n).try_catch_chain) := by
  refine ⟨fun b m n hmn => ?_, fun b => ?_, fun b n => ?_⟩
  · have hm := nthTryCatch_try_index b m
    have hn := nthTryCatch_try_index b n
    constructor <;> omega
  · refine ⟨?_, ?_, ?_⟩ <;>
      simp [TryCatchBlock.construct, Builder.AllocateTryIndex]
  · simp [nthTryCatch, TryCatchBlock.construct, Builder.AllocateTryIndex]

/-- Witness for C8 at the first two default constructions on a concrete
builder. -/
theorem try_catch_fresh_indices_witness :
    0 < 1
    ∧ ((nthTryCatch builder0 0).1.try_index < (nthTryCatch builder0 1).1.try_index
       ∧ ¬ (nthTryCatch builder0 0).1.try_index
            = (nthTryCatch builder0 1).1.try_index) :=
  ⟨by decide, try_catch_fresh_indices.1 builder0 0 1 (by decide)⟩

/-- EnsureDestination leaves every SwitchRec field except the destination
map unchanged. -/
theorem switch_ensure_preserves (r : SwitchRec) (b : Builder) (n : Int) :
    (r.EnsureDestination b n).2.1.depth = r.depth
    ∧ (r.EnsureDestination b n).2.1.outer_finally = r.outer_finally
    ∧ (r.EnsureDestination b n).2.1.context_depth = r.context_depth
    ∧ (r.EnsureDestination b n).2.1.try_index = r.try_index
    ∧ (r.EnsureDestination b n).2.1.case_count = r.case_count := by
  unfold SwitchRec.EnsureDestination
  split <;> simp

/-- After EnsureDestination the destination map holds the returned join
entry for the requested case number. -/
theorem switch_ensure_lookup (r : SwitchRec) (b : Builder) (n : Int) :
    IntMap.Lookup (r.EnsureDestination b n).2.1.destinations n
      = some (r.EnsureDestination b n).1 := by
  unfold SwitchRec.EnsureDestination
  cases hl : IntMap.Lookup r.destinations n with
  | none => simp [hl, IntMap.Lookup, IntMap.Insert, assocLookup]
  | some inst => simp [hl]

/-- EnsureDestination is idempotent: a second request for the same case
number returns the join entry of the first request and changes neither the
block nor the builder. -/
theorem switch_ensure_idem (r : SwitchRec) (b : Builder) (n : Int) :
    (r.EnsureDestination b n).2.1.EnsureDestination
        (r.EnsureDestination b n).2.2 n
      = ((r.EnsureDestination b n).1, (r.EnsureDestination b n).2.1,
         (r.EnsureDestination b n).2.2) := by
  have hl := switch_ensure_lookup r b n
  rcases hE : r.EnsureDestination b n with ⟨j, r1, b1⟩
  rw [hE] at hl
  simp only at hl
  simp [SwitchRec.EnsureDestination, hl]

/-- Walking characterization of SwitchBlock.Destination: when some block of
the chain has depth at most the target index, the walk stops at the first
such block, reports the recorded outer finally chain and context depth of
that block, and ensures the join entry for the target index minus the block
depth. -/
theorem switch_destination_walk (chain : List SwitchRec) (b : Builder)
    (n : Int) (h : ∃ r ∈ chain, r.depth ≤ n) :
    ∃ r chain1,
      List.find? (fun s => decide (s.depth ≤ n)) chain = some r
      ∧ SwitchBlock.Destination chain b n
          = some ((r.EnsureDestination b (n - r.depth)).1, r.outer_finally,
                  r.context_depth, chain1,
                  (r.EnsureDestination b (n - r.depth)).2.2) := by
  induction chain with
  | nil => simp at h
  | cons r0 rest ih =>
    by_cases hd : r0.depth ≤ n
    · refine ⟨r0, (r0.EnsureDestination b (n - r0.depth)).2.1 :: rest, ?_, ?_⟩
      · simp [List.find?_cons, hd]
      · simp [SwitchBlock.Destination, not_lt.mpr hd]
    · have h2 : ∃ r ∈ rest, r.depth ≤ n := by
        obtain ⟨r1, hr1, hle⟩ := h
        rcases List.mem_cons.mp hr1 with he | hm
        · exact absurd (he ▸ hle) hd
        · exact ⟨r1, hm, hle⟩
      obtain ⟨r1, chain1, hfind, hdest⟩ := ih h2
      refine ⟨r1, r0 :: chain1, ?_, ?_⟩
      · simp [List.find?_cons, hd, hfind]
      · simp [SwitchBlock.Destination, lt_of_not_le hd, hdest]

/-- Destination is idempotent over the whole chain: a second request with
the same absolute target returns the same join entry and leaves the chain
and the builder unchanged. -/
theorem switch_destination_idem (chain : List SwitchRec) :
    ∀ (b : Builder) (n : Int) (j : JoinEntry) (f : List TryFinallyRec)
      (cd : Int) (chain1 : List SwitchRec) (b1 : Builder),
      SwitchBlock.Destination chain b n = some (j, f, cd, chain1, b1) →
      SwitchBlock.Destination chain1 b1 n = some (j, f, cd, chain1, b1) := by
  induction chain with
  | nil =>
    intro b n j f cd chain1 b1 h
    simp [SwitchBlock.Destination] at h
  | cons r0 rest ih =>
    intro b n j f cd chain1 b1 h
    simp only [SwitchBlock.Destination] at h
    by_cases hd : r0.depth > n
    · rw [if_pos hd] at h
      cases hrec : SwitchBlock.Destination rest b n with
      | none => rw [hrec] at h; exact absurd h (by simp)
      | some q =>
        obtain ⟨j2, f2, cd2, rest1, b2⟩ := q
        rw [hrec] at h
        simp only [Option.some.injEq, Prod.mk.injEq] at h
        obtain ⟨hj, hf, hcd, hchain, hb⟩ := h
        subst hj hf hcd hchain hb
        have hrec2 := ih b n j2 f2 cd2 rest1 b2 hrec
        simp only [SwitchBlock.Destination, if_pos hd, hrec2]
    · rw [if_neg hd] at h
      simp only [Option.some.injEq, Prod.mk.injEq] at h
      obtain ⟨hj, hf, hcd, hchain, hb⟩ := h
      subst hj hf hcd hchain hb
      have hp := switch_ensure_preserves r0 b (n - r0.depth)
      have hi := switch_ensure_idem r0 b (n - r0.depth)
      simp only [SwitchBlock.Destination]
      rw [if_neg (by rw [hp.1]; exact hd), hp.1, hi]
      simp [hp.2.1, hp.2.2.1]

/-- C3: switch-case numbering is function-relative and contiguous: a
SwitchBlock constructed inside another records depth equal to the depth of
the outer block plus its case count, and depth zero when outermost; and for
a target case number that lies in the range of some enclosing switch
region, Destination walks outward to the first block whose recorded depth
is at most the target, returns the join entry that block ensures for the
target minus its depth, and reports the finally region chain and context
depth recorded by that block. -/
theorem switch_numbering_and_destination :
    (∀ (b : Builder) (cc : Int),
        (b.switch_chain = [] → (SwitchBlock.construct b cc).1.1.depth = 0)
        ∧ (∀ (o : SwitchRec) (rest : List SwitchRec),
            b.switch_chain = o :: rest →
            (SwitchBlock.construct b cc).1.1.depth = o.depth + o.case_count))
    ∧ (∀ (chain : List SwitchRec) (b : Builder) (n : Int),
        (∃ r ∈ chain, r.depth ≤ n ∧ n < r.depth + r.case_count) →
        ∃ r chain1,
          List.find? (fun s => decide (s.depth ≤ n)) chain = some r
          ∧ SwitchBlock.Destination chain b n
              = some ((r.EnsureDestination b (n - r.depth)).1, r.outer_finally,
                      r.context_depth, chain1,
                      (r.EnsureDestination b (n - r.depth)).2.2)) := by
  constructor
  · intro b cc
    constructor
    · intro h; simp [SwitchBlock.construct, h]
    · intro o rest h; simp [SwitchBlock.construct, h]
  · intro chain b n h
    obtain ⟨r, hr, hle, _⟩ := h
    exact switch_destination_walk chain b n ⟨r, hr, hle⟩

/-- Witness for C3 on a two-level switch chain with target case one, which
lies in the range of the outer block only. -/
theorem switch_numbering_and_destination_witness :
    (∃ r ∈ [switchInner, switchOuter], r.depth ≤ 1 ∧ 1 < r.depth + r.case_count)
    ∧ ∃ r chain1,
        List.find? (fun s => decide (s.depth ≤ 1)) [switchInner, switchOuter]
          = some r
        ∧ SwitchBlock.Destination [switchInner, switchOuter] builder0 1
            = some ((r.EnsureDestination builder0 (1 - r.depth)).1,
                    r.outer_finally, r.context_depth, chain1,
                    (r.EnsureDestination builder0 (1 - r.depth)).2.2) :=
  ⟨by decide,
   switch_numbering_and_destination.2 [switchInner, switchOuter] builder0 1
     (by decide)⟩

/-- C6: switch-case destination materialization is lazy and idempotent: a
freshly constructed SwitchBlock has a join entry for no case (HadJumper is
false everywhere); the first request for a case with no join entry builds a
fresh join entry tagged with the try-index of the block and stores it in
the destination map of the owning block, after which HadJumper is true; and
a repeated request for the same case number, directly or through the same
region chain, returns the same join entry and changes nothing. -/
theorem switch_destination_lazy_idempotent :
    (∀ (b : Builder) (cc n : Int),
        SwitchRec.HadJumper (SwitchBlock.construct b cc).1.1 n = false)
    ∧ (∀ (r : SwitchRec) (b : Builder) (n : Int),
        r.HadJumper n = false →
        (r.EnsureDestination b n).1
            = { id := b.last_used_block_id + 1, try_index := r.try_index }
        ∧ IntMap.Lookup (r.EnsureDestination b n).2.1.destinations n
            = some (r.EnsureDestination b n).1
        ∧ (r.EnsureDestination b n).2.1.HadJumper n = true)
    ∧ (∀ (r : SwitchRec) (b : Builder) (n : Int),
        (r.EnsureDestination b n).2.1.EnsureDestination
            (r.EnsureDestination b n).2.2 n
          = ((r.EnsureDestination b n).1, (r.EnsureDestination b n).2.1,
             (r.EnsureDestination b n).2.2))
    ∧ (∀ (chain : List SwitchRec) (b : Builder) (n : Int) (j : JoinEntry)
          (f : List TryFinallyRec) (cd : Int) (chain1 : List SwitchRec)
          (b1 : Builder),
        SwitchBlock.Destination chain b n = some (j, f, cd, chain1, b1) →
        SwitchBlock.Destination chain1 b1 n = some (j, f, cd, chain1, b1)) := by
  refine ⟨?_, ?_, switch_ensure_idem, switch_destination_idem⟩
  · intro b cc n
    simp only [SwitchRec.HadJumper, SwitchBlock.construct, IntMap.Lookup,
      assocLookup]
    rfl
  · intro r b n h
    cases hl : IntMap.Lookup r.destinations n with
    | some v => simp [SwitchRec.HadJumper, hl] at h
    | none =>
      refine ⟨?_, switch_ensure_lookup r b n, ?_⟩
      · simp [SwitchRec.EnsureDestination, hl, Builder.BuildJoinEntry,
          Builder.AllocateBlockId]
      · simp [SwitchRec.HadJumper, switch_ensure_lookup r b n]

/-- Witness for C6: on a fresh concrete block, case one has no join entry,
the first request materializes one, and a repeated chain request returns it
unchanged. -/
theorem switch_destination_lazy_idempotent_witness :
    (SwitchRec.HadJumper switchOuter 1 = false
     ∧ ((switchOuter.EnsureDestination builder0 1).1
          = { id := builder0.last_used_block_id + 1,
              try_index := switchOuter.try_index }
        ∧ IntMap.Lookup
            (switchOuter.EnsureDestination builder0 1).2.1.destinations 1
            = some (switchOuter.EnsureDestination builder0 1).1
        ∧ (switchOuter.EnsureDestination builder0 1).2.1.HadJumper 1 = true))
    ∧ (SwitchBlock.Destination [switchOuter] builder0 1
         = some (joinEntry11, [], 9, [switchOuterFilled], builder11)
       ∧ SwitchBlock.Destination [switchOuterFilled] builder11 1
         = some (joinEntry11, [], 9, [switchOuterFilled], builder11)) :=
  ⟨⟨by decide,
    switch_destination_lazy_idempotent.2.1 switchOuter builder0 1 (by decide)⟩,
   ⟨by decide,
    switch_destination_lazy_idempotent.2.2.2 [switchOuter] builder0 1
      joinEntry11 [] 9 [switchOuterFilled] builder11 (by decide)⟩⟩

/-- BreakableBlock EnsureDestination leaves every field except the
destination unchanged, and afterwards the destination holds the returned
join entry. -/
theorem break_ensure_preserves (r : BreakableRec) (b : Builder) :
    (r.EnsureDestination b).2.1.index = r.index
    ∧ (r.EnsureDestination b).2.1.outer_finally = r.outer_finally
    ∧ (r.EnsureDestination b).2.1.context_depth = r.context_depth
    ∧ (r.EnsureDestination b).2.1.try_index = r.try_index
    ∧ (r.EnsureDestination b).2.1.destination
        = some (r.EnsureDestination b).1 := by
  unfold BreakableRec.EnsureDestination
  split <;> simp_all

/-- EnsureDestination with an already stored destination returns the stored
join entry and changes nothing. -/
theorem break_ensure_stored (r : BreakableRec) (j : JoinEntry) (b : Builder)
    (h : r.destination = some j) : r.EnsureDestination b = (j, r, b) := by
  simp [BreakableRec.EnsureDestination, h]

/-- Walking characterization of breakWalk: when some block of the chain
carries the label index, the walk stops at the first such block, reports
its recorded outer finally chain and context depth, and ensures its
destination join entry. -/
theorem break_walk_spec (chain : List BreakableRec) (b : Builder) (li : Int)
    (h : ∃ r ∈ chain, r.index = li) :
    ∃ r chain1,
      List.find? (fun s => decide (s.index = li)) chain = some r
      ∧ breakWalk chain b li
          = some ((r.EnsureDestination b).1, r.outer_finally, r.context_depth,
                  chain1, (r.EnsureDestination b).2.2) := by
  induction chain with
  | nil => simp at h
  | cons r0 rest ih =>
    by_cases hd : r0.index = li
    · refine ⟨r0, (r0.EnsureDestination b).2.1 :: rest, ?_, ?_⟩
      · simp [List.find?_cons, hd]
      · simp [breakWalk, hd]
    · have h2 : ∃ r ∈ rest, r.index = li := by
        obtain ⟨r1, hr1, hle⟩ := h
        rcases List.mem_cons.mp hr1 with he | hm
        · exact absurd (he ▸ hle) hd
        · exact ⟨r1, hm, hle⟩
      obtain ⟨r1, chain1, hfind, hdest⟩ := ih h2
      refine ⟨r1, r0 :: chain1, ?_, ?_⟩
      · simp [List.find?_cons, hd, hfind]
      · simp [breakWalk, hd, hdest]

/-- After a successful breakWalk, every later walk with the same label
index finds the stored join entry: it returns the same join entry and the
same recorded data and leaves the chain and any builder unchanged. -/
theorem break_walk_idem (chain : List BreakableRec) :
    ∀ (b : Builder) (li : Int) (j : JoinEntry) (f : List TryFinallyRec)
      (cd : Int) (chain1 : List BreakableRec) (b1 : Builder),
      breakWalk chain b li = some (j, f, cd, chain1, b1) →
      ∀ b2 : Builder, breakWalk chain1 b2 li = some (j, f, cd, chain1, b2) := by
  induction chain with
  | nil =>
    intro b li j f cd chain1 b1 h
    simp [breakWalk] at h
  | cons r0 rest ih =>
    intro b li j f cd chain1 b1 h b2
    simp only [breakWalk] at h
    by_cases hd : r0.index = li
    · rw [if_pos hd] at h
      simp only [Option.some.injEq, Prod.mk.injEq] at h
      obtain ⟨hj, hf, hcd, hchain, hb⟩ := h
      subst hj hf hcd hchain hb
      have hp := break_ensure_preserves r0 b
      rcases hE : r0.EnsureDestination b with ⟨j1, r1, b3⟩
      rw [hE] at hp
      simp only at hp
      show breakWalk (r1 :: rest) b2 li
          = some (j1, r0.outer_finally, r0.context_depth, r1 :: rest, b2)
      simp only [breakWalk]
      rw [if_pos (by rw [hp.1]; exact hd)]
      rw [break_ensure_stored r1 j1 b2 hp.2.2.2.2]
      simp [hp.2.1, hp.2.2.1]
    · rw [if_neg hd] at h
      cases hrec : breakWalk rest b li with
      | none => rw [hrec] at h; exact absurd h (by simp)
      | some q =>
        obtain ⟨j2, f2, cd2, rest1, b3⟩ := q
        rw [hrec] at h
        simp only [Option.some.injEq, Prod.mk.injEq] at h
        obtain ⟨hj, hf, hcd, hchain, hb⟩ := h
        subst hj hf hcd hchain hb
        have hrec2 := ih b li j2 f2 cd2 rest1 b3 hrec b2
        simp only [breakWalk, if_neg hd, hrec2]

/-- C5: for a labeled break whose label index equals the recorded index of
some enclosing breakable region, BreakDestination walks outward from the
innermost breakable region to the first region whose recorded index
matches, returns its destination join entry (a freshly built join entry on
the first request, the stored one otherwise, and the same join entry on
every later request), and writes out the finally region chain and context
depth that were recorded when that breakable region was opened. -/
theorem break_destination_resolution (b : Builder) (li : Int)
    (h : ∃ r ∈ b.breakable_chain, r.index = li) :
    ∃ r b1 j,
      List.find? (fun s => decide (s.index = li)) b.breakable_chain = some r
      ∧ BreakableBlock.BreakDestination b li
          = some (j, r.outer_finally, r.context_depth, b1)
      ∧ (r.destination = none →
          j = { id := b.last_used_block_id + 1, try_index := r.try_index })
      ∧ (∀ j0 : JoinEntry, r.destination = some j0 → j = j0)
      ∧ BreakableBlock.BreakDestination b1 li
          = some (j, r.outer_finally, r.context_depth, b1) := by
  obtain ⟨r, chain1, hfind, hwalk⟩ := break_walk_spec b.breakable_chain b li h
  refine ⟨r, { (r.EnsureDestination b).2.2 with breakable_chain := chain1 },
          (r.EnsureDestination b).1, hfind, ?_, ?_, ?_, ?_⟩
  · simp [BreakableBlock.BreakDestination, hwalk]
  · intro hnone
    simp [BreakableRec.EnsureDestination, hnone, Builder.BuildJoinEntry,
      Builder.AllocateBlockId]
  · intro j0 hsome
    simp [BreakableRec.EnsureDestination, hsome]
  · have hidem := break_walk_idem b.breakable_chain b li
      (r.EnsureDestination b).1 r.outer_finally r.context_depth chain1
      (r.EnsureDestination b).2.2 hwalk
      { (r.EnsureDestination b).2.2 with breakable_chain := chain1 }
    simp [BreakableBlock.BreakDestination, hidem]

/-- Witness for C5 on a builder with two nested breakable blocks, breaking
to the outer one with label index zero. -/
theorem break_destination_resolution_witness :
    (∃ r ∈ builder1.breakable_chain, r.index = 0)
    ∧ ∃ r b1 j,
        List.find? (fun s => decide (s.index = 0)) builder1.breakable_chain
          = some r
        ∧ BreakableBlock.BreakDestination builder1 0
            = some (j, r.outer_finally, r.context_depth, b1)
        ∧ (r.destination = none →
            j = { id := builder1.last_used_block_id + 1,
                  try_index := r.try_index })
        ∧ (∀ j0 : JoinEntry, r.destination = some j0 → j = j0)
        ∧ BreakableBlock.BreakDestination b1 0
            = some (j, r.outer_finally, r.context_depth, b1) :=
  ⟨by decide, break_destination_resolution builder1 0 (by decide)⟩

end KernelToIl
